import Mathlib

/-!
Shallow embedding of the streaming response processor of `llm-go`.

The embedded code is `(*Client).StreamResponse` from `internal/llm/client.go`
(the revision with timing instrumentation, whose body also appears in the
repository snapshot next to `internal/memory/memory.go`), together with the
pure post-processing helpers `removeThinkingBlocks` / `extractThinkingBlocks`
from `main.go`.

Modelling decisions:
* A transport event (`openai` stream chunk) is reduced to the fields the code
  reads: `Usage.PromptTokens`, `Usage.CompletionTokens`, and the
  `Delta.Content` of each choice.  Go `int64`/`int` become `Int` (no overflow
  is relevant to any claim).
* `time.Now()` is modelled by a logical clock threaded through the state: each
  call returns the current tick and advances the clock, so consecutive calls
  yield strictly increasing positive values and the Go zero `time.Time`
  corresponds to tick `0` (`IsZero` becomes `= 0`).  `time.Since(t)` is
  `now - t` with a fresh tick, exactly as in Go.
* The forwarding channel `chunkChan` is modelled by its observable trace: the
  list `sent` of fragments written to it in order, a `hasChan` flag standing
  for `chunkChan != nil`, and a `chanClosed` flag set by `close(chunkChan)`.
* `strings.Builder` accumulation is ordinary `String` concatenation.
-/

/-- Constant `startThinkTag` from `client.go` / `main.go`. -/
def startThinkTag : String := "<think>"

/-- Constant `endThinkTag` from `client.go` / `main.go`. -/
def endThinkTag : String := "</think>"

/-- The fields of the `Client` struct touched by `StreamResponse`
(`client.go`): token counters and the timing fields.  Times and durations are
logical-clock ticks (see the module comment). -/
structure ClientState where
  totalInputTokens : Int
  totalOutputTokens : Int
  currentInputTokens : Int
  currentOutputTokens : Int
  startTime : Nat
  endTime : Nat
  thinkingStart : Nat
  thinkingDuration : Nat
  responseStart : Nat
  responseDuration : Nat
  deriving Repr, DecidableEq

/-- A fresh `Client` (Go zero value: all counters `0`, all times the zero
`time.Time`). -/
def initialClient : ClientState :=
  ⟨0, 0, 0, 0, 0, 0, 0, 0, 0, 0⟩

/-- One transport event as read by the loop body: the cumulative usage
snapshot and the delta content of each choice. -/
structure Chunk where
  promptTokens : Int
  completionTokens : Int
  choices : List String
  deriving Repr, DecidableEq

/-- A pure content event (`Usage` zero, one choice carrying `t`). -/
def contentChunk (t : String) : Chunk := ⟨0, 0, [t]⟩

/-- A usage-summary event (cumulative snapshot, no choices). -/
def usageChunk (p c : Int) : Chunk := ⟨p, c, []⟩

/-- `chunk.Usage.PromptTokens > 0`: the guard under which `StreamResponse`
records usage. -/
def isUsage (ch : Chunk) : Bool := decide (0 < ch.promptTokens)

/-- The state of one in-flight session: the client fields, the logical clock,
the loop locals `inThinkingBlock` / `responseStarted`, the `fullResponse`
builder, and the observable channel trace. -/
structure SessionState where
  client : ClientState
  clock : Nat
  inThinkingBlock : Bool
  responseStarted : Bool
  fullResponse : String
  sent : List String
  chanClosed : Bool
  deriving Repr, DecidableEq

/-- Lines 199-207: on a chunk with a positive prompt-token count, overwrite
the current counters with the snapshot and add them to the lifetime totals. -/
def recordUsage (ch : Chunk) (s : SessionState) : SessionState :=
  if isUsage ch then
    { s with client := { s.client with
        currentInputTokens := ch.promptTokens
        currentOutputTokens := ch.completionTokens
        totalInputTokens := s.client.totalInputTokens + ch.promptTokens
        totalOutputTokens := s.client.totalOutputTokens + ch.completionTokens } }
  else s

/-- Lines 218-226: on the first non-empty content fragment, open the response
interval if none is open, and set `responseStarted`. -/
def startFirstResponse (text : String) (s : SessionState) : SessionState :=
  if !s.responseStarted && text ≠ "" then
    let s :=
      if s.client.responseStart = 0 then
        { s with client := { s.client with responseStart := s.clock }
                 clock := s.clock + 1 }
      else s
    { s with responseStarted := true }
  else s

/-- Lines 228-239: a start tag outside a thinking block closes any open
response interval, opens the thinking interval and sets `inThinkingBlock`. -/
def enterThinking (text : String) (s : SessionState) : SessionState :=
  if !s.inThinkingBlock && text = startThinkTag then
    let s :=
      if s.client.responseStart ≠ 0 then
        { s with client := { s.client with
                   responseDuration :=
                     s.client.responseDuration + (s.clock - s.client.responseStart)
                   responseStart := 0 }
                 clock := s.clock + 1 }
      else s
    { s with client := { s.client with thinkingStart := s.clock }
             clock := s.clock + 1
             inThinkingBlock := true }
  else s

/-- Lines 242-250 (body of the end-tag branch): close the thinking interval,
reopen the response interval, clear `inThinkingBlock`. -/
def exitThinking (s : SessionState) : SessionState :=
  let s :=
    if s.client.thinkingStart ≠ 0 then
      { s with client := { s.client with
                 thinkingDuration :=
                   s.client.thinkingDuration + (s.clock - s.client.thinkingStart)
                 thinkingStart := 0 }
               clock := s.clock + 1 }
    else s
  { s with client := { s.client with responseStart := s.clock }
           clock := s.clock + 1
           inThinkingBlock := false }

/-- Lines 256-263: forward the fragment to the channel (when supplied) and
append it to the builder, unless thinking is being hidden and the state is
inside a thinking block. -/
def emitText (hideThinking hasChan : Bool) (text : String) (s : SessionState) :
    SessionState :=
  if !hideThinking || !s.inThinkingBlock then
    { s with sent := if hasChan then s.sent ++ [text] else s.sent
             fullResponse := s.fullResponse ++ text }
  else s

/-- The content part of the loop body (lines 209-263), after usage recording:
skip empty events, then classify / time / emit one fragment.  The `continue`
on the end tag under `hideThinking` is the early return in the middle
branch. -/
def processContent (hideThinking hasChan : Bool) (text : String)
    (s : SessionState) : SessionState :=
  let s := startFirstResponse text s
  let s := enterThinking text s
  if s.inThinkingBlock && text = endThinkTag then
    let s := exitThinking s
    if hideThinking then s else emitText hideThinking hasChan text s
  else emitText hideThinking hasChan text s

/-- One iteration of `for stream.Next()` (lines 196-264). -/
def processChunk (hideThinking hasChan : Bool) (s : SessionState) (ch : Chunk) :
    SessionState :=
  let s := recordUsage ch s
  match ch.choices with
  | [] => s
  | text :: _ => if text = "" then s else processContent hideThinking hasChan text s

/-- The whole streaming loop over the delivered chunks. -/
def runLoop (hideThinking hasChan : Bool) (s : SessionState)
    (chunks : List Chunk) : SessionState :=
  chunks.foldl (processChunk hideThinking hasChan) s

/-- Lines 174-180: the session-start reset (current counters, `startTime`,
both duration accumulators), followed by construction of the loop locals. -/
def initSession (c : ClientState) (clock : Nat) : SessionState :=
  { client := { c with
      currentInputTokens := 0
      currentOutputTokens := 0
      startTime := clock
      thinkingDuration := 0
      responseDuration := 0 }
    clock := clock + 1
    inThinkingBlock := false
    responseStarted := false
    fullResponse := ""
    sent := []
    chanClosed := false }

/-- Lines 266-283: record `endTime`, fold the still-open interval into its
duration accumulator, and close the channel when one was supplied. -/
def finalizeStream (hasChan : Bool) (s : SessionState) : SessionState :=
  let s := { s with client := { s.client with endTime := s.clock }
                    clock := s.clock + 1 }
  let s :=
    if s.client.thinkingStart ≠ 0 then
      { s with client := { s.client with
                 thinkingDuration :=
                   s.client.thinkingDuration + (s.clock - s.client.thinkingStart) }
               clock := s.clock + 1 }
    else if s.client.responseStart ≠ 0 then
      { s with client := { s.client with
                 responseDuration :=
                   s.client.responseDuration + (s.clock - s.client.responseStart) }
               clock := s.clock + 1 }
    else s
  if hasChan then { s with chanClosed := true } else s

/-- What `StreamResponse` hands back, plus the final observable state. -/
structure StreamOutcome where
  response : String
  isError : Bool
  state : ClientState
  sent : List String
  chanClosed : Bool
  clock : Nat
  deriving Repr, DecidableEq

/-- `(*Client).StreamResponse` (lines 172-290).  `chunks` are the events the
transport delivers before `stream.Next()` returns `false`; `streamErr` is
whether `stream.Err()` is non-nil afterwards.  On error the function returns
`("", err)` (line 286) after the same finalization as on success. -/
def StreamResponse (c : ClientState) (clock : Nat)
    (hideThinking hasChan : Bool) (chunks : List Chunk) (streamErr : Bool) :
    StreamOutcome :=
  let s := runLoop hideThinking hasChan (initSession c clock) chunks
  let s := finalizeStream hasChan s
  if streamErr then
    { response := "", isError := true, state := s.client, sent := s.sent
      chanClosed := s.chanClosed, clock := s.clock }
  else
    { response := s.fullResponse, isError := false, state := s.client
      sent := s.sent, chanClosed := s.chanClosed, clock := s.clock }

/-- Several sessions run back to back on one client (each call of
`StreamResponse` in the conversation loop), returning every session's
outcome in order. -/
def sessionOutcomes (hideThinking hasChan : Bool) :
    ClientState → Nat → List (List Chunk × Bool) → List StreamOutcome
  | _, _, [] => []
  | c, clock, sess :: rest =>
    let o := StreamResponse c clock hideThinking hasChan sess.1 sess.2
    o :: sessionOutcomes hideThinking hasChan o.state o.clock rest

/-- Final client state and clock after a list of sessions. -/
def runSessions (hideThinking hasChan : Bool) (c : ClientState) (clock : Nat)
    (sessions : List (List Chunk × Bool)) : ClientState × Nat :=
  sessions.foldl
    (fun acc sess =>
      let o := StreamResponse acc.1 acc.2 hideThinking hasChan sess.1 sess.2
      (o.state, o.clock))
    (c, clock)

/-!
Post-processing helpers from `main.go`.  Go strings are modelled as
`List Char` (all delimiter bytes are ASCII, so byte indices and character
indices agree); `strings.Index` becomes `indexOf`, returning `none` for Go's
`-1`, and `strings.TrimSpace` becomes `trimSpace` over Unicode white space.
-/

/-- `unicode.IsSpace` (the set `unicode.White_Space`), used by
`strings.TrimSpace`. -/
def isSpaceChar (c : Char) : Bool :=
  let n := c.toNat
  (9 ≤ n && n ≤ 13) || n = 32 || n = 0x85 || n = 0xA0 || n = 0x1680 ||
    (0x2000 ≤ n && n ≤ 0x200A) || n = 0x2028 || n = 0x2029 || n = 0x202F ||
    n = 0x205F || n = 0x3000

/-- `strings.TrimSpace`: drop white space from both ends. -/
def trimSpace (l : List Char) : List Char :=
  ((l.dropWhile isSpaceChar).reverse.dropWhile isSpaceChar).reverse

/-- `strings.Index(hay, needle)`: index of the first occurrence of `needle`
in `hay`, `none` when there is none. -/
def indexOf (needle : List Char) : List Char → Option Nat
  | [] => if needle.isPrefixOf ([] : List Char) then some 0 else none
  | c :: t =>
    if needle.isPrefixOf (c :: t) then some 0
    else (indexOf needle t).map (· + 1)

/-- The start delimiter as characters. -/
def startTagChars : List Char := startThinkTag.toList

/-- The end delimiter as characters. -/
def endTagChars : List Char := endThinkTag.toList

/-- `removeThinkingBlocks` (`main.go` lines 25-44): everything after the
first complete delimiter pair, trimmed, or the original string when no pair
is found. -/
def removeThinkingBlocks (s : List Char) : List Char :=
  match indexOf startTagChars s with
  | none => s
  | some startIdx =>
    let afterStart := s.drop (startIdx + startTagChars.length)
    match indexOf endTagChars afterStart with
    | none => s
    | some endIdx =>
      let afterEnd := startIdx + startTagChars.length + endIdx + endTagChars.length
      trimSpace (s.drop afterEnd)

/-- `extractThinkingBlocks` (`main.go` lines 47-65): the first delimiter pair
with its contents, tags included, trimmed; empty when no pair is found. -/
def extractThinkingBlocks (s : List Char) : List Char :=
  match indexOf startTagChars s with
  | none => []
  | some startIdx =>
    let afterStart := s.drop (startIdx + startTagChars.length)
    match indexOf endTagChars afterStart with
    | none => []
    | some endIdx =>
      trimSpace ((s.drop startIdx).take
        (startTagChars.length + endIdx + endTagChars.length))

/-! Preservation lemmas for the stream pump. -/

/-- `recordUsage` touches only token counters. -/
theorem recordUsage_obs (ch : Chunk) (s : SessionState) :
    (recordUsage ch s).sent = s.sent ∧
    (recordUsage ch s).fullResponse = s.fullResponse ∧
    (recordUsage ch s).chanClosed = s.chanClosed ∧
    (recordUsage ch s).inThinkingBlock = s.inThinkingBlock := by
  unfold recordUsage; split <;> simp

/-- `startFirstResponse` touches only timing state and `responseStarted`. -/
theorem startFirstResponse_obs (t : String) (s : SessionState) :
    (startFirstResponse t s).sent = s.sent ∧
    (startFirstResponse t s).fullResponse = s.fullResponse ∧
    (startFirstResponse t s).chanClosed = s.chanClosed ∧
    (startFirstResponse t s).inThinkingBlock = s.inThinkingBlock := by
  unfold startFirstResponse; split <;> [split <;> simp; simp]

/-- `enterThinking` touches only timing state and `inThinkingBlock`. -/
theorem enterThinking_obs (t : String) (s : SessionState) :
    (enterThinking t s).sent = s.sent ∧
    (enterThinking t s).fullResponse = s.fullResponse ∧
    (enterThinking t s).chanClosed = s.chanClosed := by
  unfold enterThinking; split <;> [split <;> simp; simp]

/-- `exitThinking` touches only timing state and `inThinkingBlock`. -/
theorem exitThinking_obs (s : SessionState) :
    (exitThinking s).sent = s.sent ∧
    (exitThinking s).fullResponse = s.fullResponse ∧
    (exitThinking s).chanClosed = s.chanClosed := by
  unfold exitThinking; split <;> simp

/-- `emitText` never closes the channel. -/
theorem emitText_chanClosed (hT hC : Bool) (t : String) (s : SessionState) :
    (emitText hT hC t s).chanClosed = s.chanClosed := by
  unfold emitText; split <;> simp


theorem processContent_chanClosed (hT hC : Bool) (t : String) (s : SessionState) :
    (processContent hT hC t s).chanClosed = s.chanClosed := by
  simp only [processContent]
  split
  · split
    · rw [(exitThinking_obs _).2.2, (enterThinking_obs _ _).2.2,
        (startFirstResponse_obs _ _).2.2.1]
    · rw [emitText_chanClosed, (exitThinking_obs _).2.2, (enterThinking_obs _ _).2.2,
        (startFirstResponse_obs _ _).2.2.1]
  · rw [emitText_chanClosed, (enterThinking_obs _ _).2.2,
      (startFirstResponse_obs _ _).2.2.1]

theorem processChunk_chanClosed (hT hC : Bool) (s : SessionState) (ch : Chunk) :
    (processChunk hT hC s ch).chanClosed = s.chanClosed := by
  simp only [processChunk]
  rcases ch.choices with _ | ⟨t, rest⟩
  · exact (recordUsage_obs ch s).2.2.1
  · split
    · exact (recordUsage_obs ch s).2.2.1
    · split
      · exact (recordUsage_obs ch s).2.2.1
      · rw [processContent_chanClosed, (recordUsage_obs _ _).2.2.1]

theorem finalizeStream_obs (hC : Bool) (s : SessionState) :
    (finalizeStream hC s).sent = s.sent ∧
    (finalizeStream hC s).fullResponse = s.fullResponse ∧
    (finalizeStream hC s).chanClosed = (hC || s.chanClosed) ∧
    (finalizeStream hC s).client.endTime = s.clock := by
  simp only [finalizeStream]
  split_ifs <;> simp_all

/-- The whole loop never closes the channel: close can only come from
finalization. -/
theorem runLoop_chanClosed (hT hC : Bool) (s : SessionState)
    (chunks : List Chunk) :
    (runLoop hT hC s chunks).chanClosed = s.chanClosed := by
  induction chunks generalizing s with
  | nil => rfl
  | cons ch t ih =>
    rw [runLoop, List.foldl_cons, ← runLoop, ih, processChunk_chanClosed]

/-- Concatenation of the fragments handed to the forwarding channel. -/
def concatAll (l : List String) : String := l.foldl (fun a b => a ++ b) ""

theorem concatAll_snoc (l : List String) (t : String) :
    concatAll (l ++ [t]) = concatAll l ++ t := by
  unfold concatAll; rw [List.foldl_append]; rfl

/-- With a channel supplied, `emitText` keeps buffer = concatenation of the
forwarded fragments. -/
theorem emitText_inv (hT : Bool) (t : String) (s : SessionState)
    (h : s.fullResponse = concatAll s.sent) :
    (emitText hT true t s).fullResponse = concatAll (emitText hT true t s).sent := by
  unfold emitText; split <;> simp [concatAll_snoc, h]

/-- The loop body preserves buffer = concatenation of forwarded fragments. -/
theorem processChunk_inv (hT : Bool) (s : SessionState) (ch : Chunk)
    (h : s.fullResponse = concatAll s.sent) :
    (processChunk hT true s ch).fullResponse =
      concatAll (processChunk hT true s ch).sent := by
  have hrec : (recordUsage ch s).fullResponse = concatAll (recordUsage ch s).sent := by
    rw [(recordUsage_obs ch s).1, (recordUsage_obs ch s).2.1, h]
  simp only [processChunk]
  rcases ch.choices with _ | ⟨t, rest⟩
  · exact hrec
  · split
    · exact hrec
    · split
      · exact hrec
      · rename_i text tail heq hne
        simp only [processContent]
        have h1 := startFirstResponse_obs text (recordUsage ch s)
        have h2 := enterThinking_obs text (startFirstResponse text (recordUsage ch s))
        split
        · split
          · rw [(exitThinking_obs _).1, (exitThinking_obs _).2.1, h2.1, h2.2.1,
              h1.1, h1.2.1, hrec]
          · apply emitText_inv
            rw [(exitThinking_obs _).1, (exitThinking_obs _).2.1, h2.1, h2.2.1,
              h1.1, h1.2.1, hrec]
        · apply emitText_inv
          rw [h2.1, h2.2.1, h1.1, h1.2.1, hrec]

/-- The loop preserves buffer = concatenation of forwarded fragments. -/
theorem runLoop_inv (hT : Bool) (s : SessionState) (chunks : List Chunk)
    (h : s.fullResponse = concatAll s.sent) :
    (runLoop hT true s chunks).fullResponse =
      concatAll (runLoop hT true s chunks).sent := by
  induction chunks generalizing s with
  | nil => exact h
  | cons ch t ih =>
    rw [runLoop, List.foldl_cons, ← runLoop]
    exact ih _ (processChunk_inv hT s ch h)

/-! Token accounting lemmas. -/

/-- `startFirstResponse` does not touch token counters. -/
theorem startFirstResponse_tokens (t : String) (s : SessionState) :
    (startFirstResponse t s).client.totalOutputTokens = s.client.totalOutputTokens ∧
    (startFirstResponse t s).client.currentOutputTokens = s.client.currentOutputTokens := by
  simp only [startFirstResponse]; split_ifs <;> simp

/-- `enterThinking` does not touch token counters. -/
theorem enterThinking_tokens (t : String) (s : SessionState) :
    (enterThinking t s).client.totalOutputTokens = s.client.totalOutputTokens ∧
    (enterThinking t s).client.currentOutputTokens = s.client.currentOutputTokens := by
  simp only [enterThinking]; split_ifs <;> simp

/-- `exitThinking` does not touch token counters. -/
theorem exitThinking_tokens (s : SessionState) :
    (exitThinking s).client.totalOutputTokens = s.client.totalOutputTokens ∧
    (exitThinking s).client.currentOutputTokens = s.client.currentOutputTokens := by
  simp only [exitThinking]; split_ifs <;> simp

/-- `emitText` does not touch token counters. -/
theorem emitText_tokens (hT hC : Bool) (t : String) (s : SessionState) :
    (emitText hT hC t s).client.totalOutputTokens = s.client.totalOutputTokens ∧
    (emitText hT hC t s).client.currentOutputTokens = s.client.currentOutputTokens := by
  simp only [emitText]; split_ifs <;> simp

/-- The content path does not touch token counters. -/
theorem processContent_tokens (hT hC : Bool) (t : String) (s : SessionState) :
    (processContent hT hC t s).client.totalOutputTokens = s.client.totalOutputTokens ∧
    (processContent hT hC t s).client.currentOutputTokens = s.client.currentOutputTokens := by
  simp only [processContent]
  have h1 := startFirstResponse_tokens t s
  have h2 := enterThinking_tokens t (startFirstResponse t s)
  have h3 := exitThinking_tokens (enterThinking t (startFirstResponse t s))
  split
  · split
    · exact ⟨by rw [h3.1, h2.1, h1.1], by rw [h3.2, h2.2, h1.2]⟩
    · have h4 := emitText_tokens hT hC t (exitThinking (enterThinking t (startFirstResponse t s)))
      exact ⟨by rw [h4.1, h3.1, h2.1, h1.1], by rw [h4.2, h3.2, h2.2, h1.2]⟩
  · have h4 := emitText_tokens hT hC t (enterThinking t (startFirstResponse t s))
    exact ⟨by rw [h4.1, h2.1, h1.1], by rw [h4.2, h2.2, h1.2]⟩

/-- Effect of one loop iteration on the output-token counters: every chunk
with a positive prompt-token count bumps the total by its (cumulative)
completion count and overwrites the current counter. -/
theorem processChunk_tokens (hT hC : Bool) (s : SessionState) (ch : Chunk) :
    (processChunk hT hC s ch).client.totalOutputTokens =
      (if isUsage ch then s.client.totalOutputTokens + ch.completionTokens
       else s.client.totalOutputTokens) ∧
    (processChunk hT hC s ch).client.currentOutputTokens =
      (if isUsage ch then ch.completionTokens else s.client.currentOutputTokens) := by
  have hrec : (recordUsage ch s).client.totalOutputTokens =
      (if isUsage ch then s.client.totalOutputTokens + ch.completionTokens
       else s.client.totalOutputTokens) ∧
      (recordUsage ch s).client.currentOutputTokens =
      (if isUsage ch then ch.completionTokens else s.client.currentOutputTokens) := by
    simp only [recordUsage]; split_ifs <;> simp
  simp only [processChunk]
  rcases ch.choices with _ | ⟨t, rest⟩
  · exact hrec
  · split
    · exact hrec
    · split
      · exact hrec
      · rename_i text tail heq hne
        have hp := processContent_tokens hT hC text (recordUsage ch s)
        exact ⟨by rw [hp.1, hrec.1], by rw [hp.2, hrec.2]⟩

/-- Sum of the completion counts of the usage snapshots in a stream. -/
def outSum (chunks : List Chunk) : Int :=
  ((chunks.filter isUsage).map Chunk.completionTokens).sum

/-- Value of the current-output counter after a stream, starting from `d`:
the completion count of the last usage snapshot, if any. -/
def lastOut : List Chunk → Int → Int
  | [], d => d
  | ch :: t, d => lastOut t (if isUsage ch then ch.completionTokens else d)

/-- The loop adds the completion counts of all usage snapshots to the
lifetime total. -/
theorem runLoop_totalOut (hT hC : Bool) (chunks : List Chunk) (s : SessionState) :
    (runLoop hT hC s chunks).client.totalOutputTokens =
      s.client.totalOutputTokens + outSum chunks := by
  induction chunks generalizing s with
  | nil => simp [runLoop, outSum]
  | cons ch t ih =>
    rw [runLoop, List.foldl_cons, ← runLoop, ih, (processChunk_tokens hT hC s ch).1]
    simp only [outSum, List.filter_cons]
    split <;> simp [outSum] <;> ring

/-- The loop leaves the current-output counter at the last usage snapshot. -/
theorem runLoop_currentOut (hT hC : Bool) (chunks : List Chunk) (s : SessionState) :
    (runLoop hT hC s chunks).client.currentOutputTokens =
      lastOut chunks s.client.currentOutputTokens := by
  induction chunks generalizing s with
  | nil => rfl
  | cons ch t ih =>
    rw [runLoop, List.foldl_cons, ← runLoop, ih, lastOut]
    congr 1
    exact (processChunk_tokens hT hC s ch).2

/-- Finalization does not touch token counters. -/
theorem finalizeStream_tokens (hC : Bool) (s : SessionState) :
    (finalizeStream hC s).client.totalOutputTokens = s.client.totalOutputTokens ∧
    (finalizeStream hC s).client.currentOutputTokens = s.client.currentOutputTokens := by
  simp only [finalizeStream]; split_ifs <;> simp_all

/-- Per-session lifetime-total effect of `StreamResponse`. -/
theorem StreamResponse_totalOut (c : ClientState) (clock : Nat)
    (hT hC : Bool) (chunks : List Chunk) (err : Bool) :
    (StreamResponse c clock hT hC chunks err).state.totalOutputTokens =
      c.totalOutputTokens + outSum chunks := by
  simp only [StreamResponse]
  split <;>
    simp only [] <;>
    rw [(finalizeStream_tokens hC _).1, runLoop_totalOut] <;> rfl

/-- Per-session current-counter effect of `StreamResponse`: reset to `0`,
then overwritten by each usage snapshot. -/
theorem StreamResponse_currentOut (c : ClientState) (clock : Nat)
    (hT hC : Bool) (chunks : List Chunk) (err : Bool) :
    (StreamResponse c clock hT hC chunks err).state.currentOutputTokens =
      lastOut chunks 0 := by
  simp only [StreamResponse]
  split <;>
    simp only [] <;>
    rw [(finalizeStream_tokens hC _).2, runLoop_currentOut] <;> rfl

theorem lastOut_no_usage (chunks : List Chunk) (d : Int)
    (h : chunks.filter isUsage = []) : lastOut chunks d = d := by
  induction chunks generalizing d with
  | nil => rfl
  | cons ch t ih =>
    rw [List.filter_cons] at h
    rw [lastOut]
    split at h
    · exact absurd h (by simp)
    · rename_i hu
      rw [if_neg (by simpa using hu)]
      exact ih d h

theorem lastOut_single (chunks : List Chunk) (d : Int) (u : Chunk)
    (h : chunks.filter isUsage = [u]) : lastOut chunks d = u.completionTokens := by
  induction chunks generalizing d with
  | nil => simp at h
  | cons ch t ih =>
    rw [List.filter_cons] at h
    rw [lastOut]
    split at h
    · rename_i hu
      simp only [List.cons.injEq] at h
      obtain ⟨rfl, ht⟩ := h
      rw [if_pos hu]
      exact lastOut_no_usage t _ ht
    · rename_i hu
      rw [if_neg (by simpa using hu)]
      exact ih d h

theorem outSum_single (chunks : List Chunk) (u : Chunk)
    (h : chunks.filter isUsage = [u]) : outSum chunks = u.completionTokens := by
  rw [outSum, h]; simp

/-- C2 (amended): when the transport ends with an error, `StreamResponse`
returns the empty string together with the error, while every fragment
accepted before the failure has already been forwarded on the channel, and
the channel is closed (when one was supplied) before the error is
surfaced. -/
theorem C2_error_path (c : ClientState) (clock : Nat) (hT hC : Bool)
    (chunks : List Chunk) :
    (StreamResponse c clock hT hC chunks true).isError = true ∧
    (StreamResponse c clock hT hC chunks true).response = "" ∧
    (StreamResponse c clock hT hC chunks true).sent =
      (runLoop hT hC (initSession c clock) chunks).sent ∧
    (StreamResponse c clock hT hC chunks true).chanClosed = hC := by
  refine ⟨rfl, rfl, (finalizeStream_obs hC _).1, ?_⟩
  show (finalizeStream hC (runLoop hT hC (initSession c clock) chunks)).chanClosed = hC
  rw [(finalizeStream_obs hC _).2.2.1, runLoop_chanClosed]
  simp [initSession]

/-- C2 counterexample: a stream that errors after the two fragments `"a"`,
`"b"` forwards both fragments and closes the channel, but returns `""`
rather than the partial buffer `"ab"`. -/
theorem C2_cex :
    (StreamResponse initialClient 1 false true
      [contentChunk "a", contentChunk "b"] true).sent = ["a", "b"] ∧
    (StreamResponse initialClient 1 false true
      [contentChunk "a", contentChunk "b"] true).isError = true ∧
    (StreamResponse initialClient 1 false true
      [contentChunk "a", contentChunk "b"] true).response = "" ∧
    (StreamResponse initialClient 1 false true
      [contentChunk "a", contentChunk "b"] true).response ≠ "ab" := by
  refine ⟨by decide, by decide, by decide, by decide⟩

/-- C10: with a forwarding channel supplied, on the success path the
returned full response is exactly the concatenation, in order, of the
fragments delivered on the channel. -/
theorem C10_channel_buffer_agree (hT : Bool) (c : ClientState) (clock : Nat)
    (chunks : List Chunk) :
    (StreamResponse c clock hT true chunks false).isError = false ∧
    (StreamResponse c clock hT true chunks false).response =
      concatAll (StreamResponse c clock hT true chunks false).sent := by
  refine ⟨rfl, ?_⟩
  show (finalizeStream true (runLoop hT true (initSession c clock) chunks)).fullResponse =
    concatAll (finalizeStream true (runLoop hT true (initSession c clock) chunks)).sent
  rw [(finalizeStream_obs true _).2.1, (finalizeStream_obs true _).1]
  exact runLoop_inv hT _ chunks (by simp [initSession, concatAll])

/-- C7: the channel is never closed while the loop is pumping, is closed by
the finalization in every outcome, no fragment is forwarded after the loop
(so the close follows the last write), and the error outcome performs
exactly the same finalization (state, forwarded fragments, close) as the
success outcome before surfacing the error. -/
theorem C7_close_discipline (hT : Bool) (c : ClientState) (clock : Nat)
    (chunks : List Chunk) (err : Bool) :
    (runLoop hT true (initSession c clock) chunks).chanClosed = false ∧
    (StreamResponse c clock hT true chunks err).chanClosed = true ∧
    (StreamResponse c clock hT true chunks err).sent =
      (runLoop hT true (initSession c clock) chunks).sent ∧
    (StreamResponse c clock hT true chunks err).isError = err ∧
    (StreamResponse c clock hT true chunks err).state =
      (StreamResponse c clock hT true chunks false).state ∧
    (StreamResponse c clock hT true chunks err).sent =
      (StreamResponse c clock hT true chunks false).sent := by
  refine ⟨?_, ?_, ?_, ?_, ?_, ?_⟩
  · rw [runLoop_chanClosed]; rfl
  · cases err <;>
      · show (finalizeStream true (runLoop hT true (initSession c clock) chunks)).chanClosed = true
        rw [(finalizeStream_obs true _).2.2.1, runLoop_chanClosed]
        rfl
  · cases err <;> exact (finalizeStream_obs true _).1
  · cases err <;> rfl
  · cases err <;> rfl
  · cases err <;> rfl

/-- C5: the hide-thinking fixture: on input
`["<think>", "reasoning", "</think>", "answer"]` with hide-thinking enabled,
the channel yields exactly `["answer"]` and the returned response is
`"answer"` (the thinking text is suppressed from both channel and buffer). -/
theorem C5_hide_thinking_fixture :
    (StreamResponse initialClient 1 true true
      [contentChunk "<think>", contentChunk "reasoning",
       contentChunk "</think>", contentChunk "answer"] false).sent = ["answer"] ∧
    (StreamResponse initialClient 1 true true
      [contentChunk "<think>", contentChunk "reasoning",
       contentChunk "</think>", contentChunk "answer"] false).response = "answer" := by
  refine ⟨by decide, by decide⟩

/-- C4: the code leaves the open-interval marker set after finalization: a
successful session consisting of the single fragment `"hello"` ends with
`responseStart ≠ 0`, the next session's reset does not clear it, and the
stale marker corrupts the next session's `responseDuration` (an empty
follow-up session reports a non-zero response duration). -/
theorem C4_marker_leak :
    (StreamResponse initialClient 1 false false
      [contentChunk "hello"] false).state.responseStart ≠ 0 ∧
    (StreamResponse
      (StreamResponse initialClient 1 false false [contentChunk "hello"] false).state
      (StreamResponse initialClient 1 false false [contentChunk "hello"] false).clock
      false false [] false).state.responseStart ≠ 0 ∧
    (StreamResponse
      (StreamResponse initialClient 1 false false [contentChunk "hello"] false).state
      (StreamResponse initialClient 1 false false [contentChunk "hello"] false).clock
      false false [] false).state.responseDuration ≠ 0 := by
  refine ⟨by decide, by decide, by decide⟩

/-- C3 (amended): every usage snapshot with a positive prompt-token count
bumps the lifetime totals; when each session delivers exactly one such
snapshot, after any number of sessions the lifetime output total equals the
sum of each session's final current output count. -/
theorem C3_totals_once_per_session (hT hC : Bool)
    (sessions : List (List Chunk × Bool)) (c : ClientState) (clock : Nat)
    (h : ∀ sess ∈ sessions, ((sess.1).filter isUsage).length = 1) :
    (runSessions hT hC c clock sessions).1.totalOutputTokens =
      c.totalOutputTokens +
        ((sessionOutcomes hT hC c clock sessions).map
          (fun o => o.state.currentOutputTokens)).sum := by
  induction sessions generalizing c clock with
  | nil => simp [runSessions, sessionOutcomes]
  | cons sess rest ih =>
    obtain ⟨u, hu⟩ := List.length_eq_one.mp (h sess (by simp))
    have hrest : ∀ s ∈ rest, ((s.1).filter isUsage).length = 1 :=
      fun s hs => h s (by simp [hs])
    rw [runSessions, List.foldl_cons, ← runSessions, sessionOutcomes]
    simp only [List.map_cons, List.sum_cons]
    rw [ih _ _ hrest, StreamResponse_totalOut, StreamResponse_currentOut,
      outSum_single _ _ hu, lastOut_single _ _ _ hu]
    ring

/-- C3 witness: two sessions, each with exactly one usage snapshot. -/
theorem C3_witness :
    (∀ sess ∈ ([([usageChunk 5 7], false),
                ([contentChunk "hi", usageChunk 3 4], true)] :
        List (List Chunk × Bool)), ((sess.1).filter isUsage).length = 1) ∧
    (runSessions false true initialClient 1
      [([usageChunk 5 7], false),
       ([contentChunk "hi", usageChunk 3 4], true)]).1.totalOutputTokens =
      initialClient.totalOutputTokens +
        ((sessionOutcomes false true initialClient 1
          [([usageChunk 5 7], false),
           ([contentChunk "hi", usageChunk 3 4], true)]).map
          (fun o => o.state.currentOutputTokens)).sum :=
  ⟨by decide, C3_totals_once_per_session false true _ initialClient 1 (by decide)⟩

/-- C3 counterexample: a single session in which the transport delivers two
cumulative usage snapshots; the lifetime total (50) is the sum of both
snapshots, not the session's final current value (30). -/
theorem C3_cex :
    (runSessions false false initialClient 1
      [([usageChunk 10 20, usageChunk 10 30], false)]).1.totalOutputTokens = 50 ∧
    ((sessionOutcomes false false initialClient 1
      [([usageChunk 10 20, usageChunk 10 30], false)]).map
      (fun o => o.state.currentOutputTokens)).sum = 30 ∧
    (runSessions false false initialClient 1
      [([usageChunk 10 20, usageChunk 10 30], false)]).1.totalOutputTokens ≠
      initialClient.totalOutputTokens +
        ((sessionOutcomes false false initialClient 1
          [([usageChunk 10 20, usageChunk 10 30], false)]).map
          (fun o => o.state.currentOutputTokens)).sum := by
  refine ⟨by decide, by decide, by decide⟩

/-- C1 (amended): a fragment equal to the start delimiter arriving while
`inThinkingBlock` is false flips the flag to true; it is consumed (neither
buffered nor forwarded) only when hide-thinking is enabled — with
hide-thinking disabled it is appended to the buffer and forwarded to the
channel when one is supplied. -/
theorem C1_start_tag_transition (hT hC : Bool) (s : SessionState)
    (h : s.inThinkingBlock = false) :
    (processChunk hT hC s (contentChunk startThinkTag)).inThinkingBlock = true ∧
    (hT = true →
      (processChunk hT hC s (contentChunk startThinkTag)).fullResponse = s.fullResponse ∧
      (processChunk hT hC s (contentChunk startThinkTag)).sent = s.sent) ∧
    (hT = false →
      (processChunk hT hC s (contentChunk startThinkTag)).fullResponse =
        s.fullResponse ++ startThinkTag ∧
      (processChunk hT hC s (contentChunk startThinkTag)).sent =
        (if hC then s.sent ++ [startThinkTag] else s.sent)) := by
  have hrec : recordUsage (⟨0, 0, [startThinkTag]⟩ : Chunk) s = s := by
    simp [recordUsage, isUsage]
  have hsf := startFirstResponse_obs startThinkTag s
  have henter : ∀ s1 : SessionState, s1.inThinkingBlock = false →
      (enterThinking startThinkTag s1).inThinkingBlock = true ∧
      (enterThinking startThinkTag s1).sent = s1.sent ∧
      (enterThinking startThinkTag s1).fullResponse = s1.fullResponse := by
    intro s1 h1
    simp only [enterThinking, h1]
    split_ifs <;> simp_all
  have hkey := henter (startFirstResponse startThinkTag s)
    (by rw [hsf.2.2.2, h])
  simp only [processChunk, contentChunk, hrec, processContent]
  rw [if_neg (show ¬(startThinkTag = "") by decide)]
  rw [if_neg (show ¬((enterThinking startThinkTag
      (startFirstResponse startThinkTag s)).inThinkingBlock &&
      decide (startThinkTag = endThinkTag)) = true by
    simp [show ¬(startThinkTag = endThinkTag) by decide])]
  simp only [emitText, hkey.1]
  refine ⟨?_, ?_, ?_⟩
  · split <;> simp [hkey.1]
  · rintro rfl
    rw [if_neg (by simp)]
    exact ⟨by rw [hkey.2.2, hsf.2.1], by rw [hkey.2.1, hsf.1]⟩
  · rintro rfl
    rw [if_pos (by simp)]
    exact ⟨by simp [hkey.2.2, hsf.2.1], by simp [hkey.2.1, hsf.1]⟩

/-- C1 witness: a mid-stream state outside a thinking block, hide-thinking
disabled, channel supplied. -/
theorem C1_witness :
    ((⟨initialClient, 5, false, true, "x", ["x"], false⟩ :
        SessionState).inThinkingBlock = false) ∧
    ((processChunk false true ⟨initialClient, 5, false, true, "x", ["x"], false⟩
        (contentChunk startThinkTag)).inThinkingBlock = true ∧
     (false = true →
       (processChunk false true ⟨initialClient, 5, false, true, "x", ["x"], false⟩
         (contentChunk startThinkTag)).fullResponse = "x" ∧
       (processChunk false true ⟨initialClient, 5, false, true, "x", ["x"], false⟩
         (contentChunk startThinkTag)).sent = ["x"]) ∧
     (false = false →
       (processChunk false true ⟨initialClient, 5, false, true, "x", ["x"], false⟩
         (contentChunk startThinkTag)).fullResponse = "x" ++ startThinkTag ∧
       (processChunk false true ⟨initialClient, 5, false, true, "x", ["x"], false⟩
         (contentChunk startThinkTag)).sent =
         (if true then ["x"] ++ [startThinkTag] else ["x"]))) :=
  ⟨rfl, C1_start_tag_transition false true
    ⟨initialClient, 5, false, true, "x", ["x"], false⟩ rfl⟩

/-- C1 counterexample: with hide-thinking disabled the start tag is both
forwarded on the channel and appended to the returned response, refuting
"appended to neither, regardless of the hide-thinking policy". -/
theorem C1_cex :
    (StreamResponse initialClient 1 false true
      [contentChunk "<think>"] false).sent = ["<think>"] ∧
    (StreamResponse initialClient 1 false true
      [contentChunk "<think>"] false).response = "<think>" := by
  refine ⟨by decide, by decide⟩

/-! First-occurrence machinery for `indexOf`. -/

theorem indexOf_cons (needle : List Char) (c : Char) (t : List Char) :
    indexOf needle (c :: t) =
      if needle.isPrefixOf (c :: t) then some 0
      else (indexOf needle t).map (· + 1) := rfl

theorem indexOf_of_front (needle hay : List Char) (h : needle <+: hay) :
    indexOf needle hay = some 0 := by
  cases hay with
  | nil =>
    have : needle = [] := List.prefix_nil.mp h
    subst this; rfl
  | cons c t => rw [indexOf_cons, if_pos (List.isPrefixOf_iff_prefix.mpr h)]

theorem prefix_of_append_of_le {α : Type} {p a : List α} (b : List α)
    (h : p <+: a ++ b) (hl : p.length ≤ a.length) : p <+: a := by
  rw [ List.prefix_iff_eq_take] at h ⊢
  rw [List.take_append_eq_append_take, Nat.sub_eq_zero_of_le hl,
    List.take_zero, List.append_nil] at h
  exact h

theorem drop_prefix_of_append_of_lt {α : Type} {p a b : List α}
    (h : p <+: a ++ b) (hl : a.length < p.length) : p.drop a.length <+: b := by
  rw [ List.prefix_iff_eq_take, List.take_append_eq_append_take,
    List.take_of_length_le (Nat.le_of_lt hl)] at h
  rw [h, List.drop_left]
  exact List.take_prefix _ _

/-- If `E` occurs nowhere in `pre` and no proper suffix of `E` is a prefix of
`E` (no border), then the first occurrence of `E` in `pre ++ E ++ rest` is at
`pre.length`. -/
theorem indexOf_first_at (E pre rest : List Char)
    (hnb : ∀ d, d < E.length → 0 < d → ¬(E.drop d <+: E))
    (hpre : indexOf E pre = none) :
    indexOf E (pre ++ (E ++ rest)) = some pre.length := by
  induction pre with
  | nil => simpa using indexOf_of_front E (E ++ rest) (List.prefix_append E rest)
  | cons c p ih =>
    have hsplit : ¬(E.isPrefixOf (c :: p) = true) ∧ indexOf E p = none := by
      rw [indexOf_cons] at hpre
      by_cases hcp : E.isPrefixOf (c :: p) = true
      · rw [if_pos hcp] at hpre; exact absurd hpre (by simp)
      · rw [if_neg hcp] at hpre
        exact ⟨hcp, by simpa using hpre⟩
    rw [List.cons_append, indexOf_cons, if_neg ?hnotpre]
    case hnotpre =>
      intro hpref
      have hpref' : E <+: (c :: p) ++ (E ++ rest) := by
        rw [List.isPrefixOf_iff_prefix] at hpref
        rwa [List.cons_append]
      rcases le_or_lt E.length (c :: p).length with hle | hlt
      · exact hsplit.1 (List.isPrefixOf_iff_prefix.mpr
          (prefix_of_append_of_le _ hpref' hle))
      · have h2 := drop_prefix_of_append_of_lt hpref' hlt
        have h3 : E.drop (c :: p).length <+: E :=
          prefix_of_append_of_le rest h2 (by rw [List.length_drop]; omega)
        exact hnb (c :: p).length hlt (by simp) h3
    rw [ih hsplit.2]
    simp

/-- Neither delimiter has a non-trivial border. -/
theorem startTag_noBorder : ∀ d, d < startTagChars.length → 0 < d →
    ¬(startTagChars.drop d <+: startTagChars) := by decide

theorem endTag_noBorder : ∀ d, d < endTagChars.length → 0 < d →
    ¬(endTagChars.drop d <+: endTagChars) := by decide

theorem drop_two_blocks (a S m : List Char) :
    (a ++ (S ++ m)).drop (a.length + S.length) = m := by
  rw [← List.append_assoc]
  exact List.drop_left' (List.length_append a S)

/-- `removeThinkingBlocks` on a string decomposed around its first complete
delimiter pair: result is the tail after the pair, trimmed. -/
theorem remove_decomp (a T r : List Char)
    (ha : indexOf startTagChars a = none)
    (hT : indexOf endTagChars T = none) :
    removeThinkingBlocks (a ++ (startTagChars ++ (T ++ (endTagChars ++ r)))) =
      trimSpace r := by
  have h1 := indexOf_first_at startTagChars a (T ++ (endTagChars ++ r))
    startTag_noBorder ha
  have h2 := drop_two_blocks a startTagChars (T ++ (endTagChars ++ r))
  have h3 := indexOf_first_at endTagChars T r endTag_noBorder hT
  have h4 : (a ++ (startTagChars ++ (T ++ (endTagChars ++ r)))).drop
      (a.length + startTagChars.length + T.length + endTagChars.length) = r := by
    rw [show a ++ (startTagChars ++ (T ++ (endTagChars ++ r))) =
        (a ++ startTagChars ++ T ++ endTagChars) ++ r by simp]
    exact List.drop_left' (by simp; omega)
  simp only [removeThinkingBlocks, h1, h2, h3, h4]

/-- `extractThinkingBlocks` on a string decomposed around its first complete
delimiter pair: result is the pair with its contents, tags included,
trimmed. -/
theorem extract_decomp (a T r : List Char)
    (ha : indexOf startTagChars a = none)
    (hT : indexOf endTagChars T = none) :
    extractThinkingBlocks (a ++ (startTagChars ++ (T ++ (endTagChars ++ r)))) =
      trimSpace (startTagChars ++ (T ++ endTagChars)) := by
  have h1 := indexOf_first_at startTagChars a (T ++ (endTagChars ++ r))
    startTag_noBorder ha
  have h2 := drop_two_blocks a startTagChars (T ++ (endTagChars ++ r))
  have h3 := indexOf_first_at endTagChars T r endTag_noBorder hT
  have h5 : (a ++ (startTagChars ++ (T ++ (endTagChars ++ r)))).drop a.length =
      startTagChars ++ (T ++ (endTagChars ++ r)) := List.drop_left a _
  have h6 : (startTagChars ++ (T ++ (endTagChars ++ r))).take
      (startTagChars.length + T.length + endTagChars.length) =
      startTagChars ++ (T ++ endTagChars) := by
    rw [show startTagChars ++ (T ++ (endTagChars ++ r)) =
        (startTagChars ++ (T ++ endTagChars)) ++ r by simp]
    exact List.take_left' (by simp; omega)
  simp only [extractThinkingBlocks, h1, h2, h3, h5, h6]

/-! Trimming lemmas. -/

theorem startTagChars_eq : startTagChars = ['<', 't', 'h', 'i', 'n', 'k', '>'] := rfl

theorem endTagChars_eq : endTagChars = ['<', '/', 't', 'h', 'i', 'n', 'k', '>'] := rfl

theorem dropWhile_idem {α : Type} (p : α → Bool) (l : List α) :
    (l.dropWhile p).dropWhile p = l.dropWhile p := by
  induction l with
  | nil => rfl
  | cons c t ih =>
    by_cases h : p c = true
    · rw [List.dropWhile_cons_of_pos h]; exact ih
    · rw [List.dropWhile_cons_of_neg h, List.dropWhile_cons_of_neg h]

theorem dropWhile_of_front {α : Type} (p : α → Bool) {A m : List α}
    (hA : A.dropWhile p = A) (hm : m <+: A) : m.dropWhile p = m := by
  cases A with
  | nil =>
    have : m = [] := List.prefix_nil.mp hm
    subst this; rfl
  | cons c t =>
    cases m with
    | nil => rfl
    | cons c' t' =>
      obtain ⟨rfl, -⟩ := List.cons_prefix_cons.mp hm
      have hpc : ¬(p c' = true) := by
        intro hpc
        rw [List.dropWhile_cons_of_pos hpc] at hA
        have := congrArg List.length hA
        have hle := (List.dropWhile_suffix (l := t) p).sublist.length_le
        simp at this
        omega
      rw [List.dropWhile_cons_of_neg hpc]

theorem trimSpace_idem (l : List Char) : trimSpace (trimSpace l) = trimSpace l := by
  unfold trimSpace
  have hA : (l.dropWhile isSpaceChar).dropWhile isSpaceChar = l.dropWhile isSpaceChar :=
    dropWhile_idem isSpaceChar l
  have hBrev :
      (((l.dropWhile isSpaceChar).reverse.dropWhile isSpaceChar).reverse) <+:
        l.dropWhile isSpaceChar := by
    have hsuf := List.dropWhile_suffix (l := (l.dropWhile isSpaceChar).reverse) isSpaceChar
    have h := List.reverse_prefix.mpr hsuf
    rwa [List.reverse_reverse] at h
  rw [dropWhile_of_front isSpaceChar hA hBrev, List.reverse_reverse,
    dropWhile_idem]

theorem trim_block (T : List Char) :
    trimSpace (startTagChars ++ (T ++ endTagChars)) =
      startTagChars ++ (T ++ endTagChars) := by
  have hhead : startTagChars ++ (T ++ endTagChars) =
      '<' :: (['t', 'h', 'i', 'n', 'k', '>'] ++ (T ++ endTagChars)) := by
    rw [startTagChars_eq]; rfl
  have hrev : (startTagChars ++ (T ++ endTagChars)).reverse =
      '>' :: (['k', 'n', 'i', 'h', 't', '/', '<'] ++
        (T.reverse ++ startTagChars.reverse)) := by
    rw [startTagChars_eq, endTagChars_eq]
    simp [List.reverse_append]
  unfold trimSpace
  rw [hhead, List.dropWhile_cons_of_neg (by decide), ← hhead, hrev,
    List.dropWhile_cons_of_neg (by decide), ← hrev, List.reverse_reverse]

/-- C8: `extractThinkingBlocks` returns the substring from the first start
delimiter through the first matching end delimiter, delimiters included,
trimmed of surrounding whitespace; and the empty string when the input has no
start tag or a start tag with no subsequent end tag. -/
theorem C8_extract_spec :
    (∀ a T r : List Char, indexOf startTagChars a = none →
      indexOf endTagChars T = none →
      extractThinkingBlocks (a ++ (startTagChars ++ (T ++ (endTagChars ++ r)))) =
        trimSpace (startTagChars ++ (T ++ endTagChars))) ∧
    (∀ x : List Char, indexOf startTagChars x = none →
      extractThinkingBlocks x = []) ∧
    (∀ (x : List Char) (i : Nat), indexOf startTagChars x = some i →
      indexOf endTagChars (x.drop (i + startTagChars.length)) = none →
      extractThinkingBlocks x = []) := by
  refine ⟨fun a T r ha hT => extract_decomp a T r ha hT, ?_, ?_⟩
  · intro x h
    simp only [extractThinkingBlocks, h]
  · intro x i h1 h2
    simp only [extractThinkingBlocks, h1, h2]

/-- C8 witness: a string with surrounding text and whitespace, one with no
tags, one with an unmatched start tag. -/
theorem C8_witness :
    (indexOf startTagChars (" x".toList) = none ∧
     indexOf endTagChars (" reasoning ".toList) = none ∧
     extractThinkingBlocks ((" x".toList) ++ (startTagChars ++
       ((" reasoning ".toList) ++ (endTagChars ++ (" answer".toList))))) =
       trimSpace (startTagChars ++ ((" reasoning ".toList) ++ endTagChars))) ∧
    (indexOf startTagChars ("no tags".toList) = none ∧
     extractThinkingBlocks ("no tags".toList) = []) ∧
    (indexOf startTagChars ("<think> open".toList) = some 0 ∧
     indexOf endTagChars (("<think> open".toList).drop (0 + startTagChars.length)) = none ∧
     extractThinkingBlocks ("<think> open".toList) = []) :=
  ⟨⟨by decide, by decide, C8_extract_spec.1 (" x".toList) (" reasoning ".toList)
      (" answer".toList) (by decide) (by decide)⟩,
   ⟨by decide, C8_extract_spec.2.1 ("no tags".toList) (by decide)⟩,
   ⟨by decide, by decide,
     C8_extract_spec.2.2 ("<think> open".toList) 0 (by decide) (by decide)⟩⟩

/-- C9: `removeThinkingBlocks` returns the substring after the first complete
delimiter pair, trimmed of surrounding whitespace; and the original string
unchanged (not trimmed) when the input has no start tag or a start tag with
no subsequent end tag. -/
theorem C9_remove_spec :
    (∀ a T r : List Char, indexOf startTagChars a = none →
      indexOf endTagChars T = none →
      removeThinkingBlocks (a ++ (startTagChars ++ (T ++ (endTagChars ++ r)))) =
        trimSpace r) ∧
    (∀ x : List Char, indexOf startTagChars x = none →
      removeThinkingBlocks x = x) ∧
    (∀ (x : List Char) (i : Nat), indexOf startTagChars x = some i →
      indexOf endTagChars (x.drop (i + startTagChars.length)) = none →
      removeThinkingBlocks x = x) := by
  refine ⟨fun a T r ha hT => remove_decomp a T r ha hT, ?_, ?_⟩
  · intro x h
    simp only [removeThinkingBlocks, h]
  · intro x i h1 h2
    simp only [removeThinkingBlocks, h1, h2]

/-- C9 witness: the same three shapes as for the extraction helper; note the
no-pair results keep the input's surrounding whitespace. -/
theorem C9_witness :
    (indexOf startTagChars (" x".toList) = none ∧
     indexOf endTagChars (" reasoning ".toList) = none ∧
     removeThinkingBlocks ((" x".toList) ++ (startTagChars ++
       ((" reasoning ".toList) ++ (endTagChars ++ (" answer".toList))))) =
       trimSpace (" answer".toList)) ∧
    (indexOf startTagChars (" no tags ".toList) = none ∧
     removeThinkingBlocks (" no tags ".toList) = " no tags ".toList) ∧
    (indexOf startTagChars (" <think> open ".toList) = some 1 ∧
     indexOf endTagChars ((" <think> open ".toList).drop (1 + startTagChars.length)) = none ∧
     removeThinkingBlocks (" <think> open ".toList) = " <think> open ".toList) :=
  ⟨⟨by decide, by decide, C9_remove_spec.1 (" x".toList) (" reasoning ".toList)
      (" answer".toList) (by decide) (by decide)⟩,
   ⟨by decide, C9_remove_spec.2.1 (" no tags ".toList) (by decide)⟩,
   ⟨by decide, by decide,
     C9_remove_spec.2.2 (" <think> open ".toList) 1 (by decide) (by decide)⟩⟩

/-- C6 counterexample: on `"<think>a</think>b"` the left-hand side of the
claimed identity evaluates to `"b"`, not to the concatenation of the thinking
segment and the stripped response. -/
theorem C6_cex :
    removeThinkingBlocks
        (extractThinkingBlocks ("<think>a</think>b".toList) ++
          removeThinkingBlocks ("<think>a</think>b".toList)) ≠
      extractThinkingBlocks ("<think>a</think>b".toList) ++
        removeThinkingBlocks ("<think>a</think>b".toList) := by
  decide

/-- C6 (amended): for any input with a well-formed first delimiter pair,
`extractThinkingBlocks x ++ removeThinkingBlocks x` reconstructs the thinking
segment followed by the stripped response, and applying
`removeThinkingBlocks` to that concatenation recovers exactly the stripped
response `removeThinkingBlocks x`. -/
theorem C6_roundtrip (a T r : List Char)
    (ha : indexOf startTagChars a = none)
    (hT : indexOf endTagChars T = none) :
    removeThinkingBlocks
        (extractThinkingBlocks (a ++ (startTagChars ++ (T ++ (endTagChars ++ r)))) ++
          removeThinkingBlocks (a ++ (startTagChars ++ (T ++ (endTagChars ++ r))))) =
      removeThinkingBlocks (a ++ (startTagChars ++ (T ++ (endTagChars ++ r)))) := by
  rw [extract_decomp a T r ha hT, remove_decomp a T r ha hT, trim_block]
  have h := remove_decomp [] T (trimSpace r) (by decide) hT
  rw [show (startTagChars ++ (T ++ endTagChars)) ++ trimSpace r =
      [] ++ (startTagChars ++ (T ++ (endTagChars ++ trimSpace r))) by simp]
  rw [h, trimSpace_idem]

/-- C6 witness: a concrete decomposition with text on both sides of the
pair. -/
theorem C6_witness :
    (indexOf startTagChars ("pre ".toList) = none ∧
     indexOf endTagChars (" cogito ".toList) = none) ∧
    removeThinkingBlocks
        (extractThinkingBlocks (("pre ".toList) ++ (startTagChars ++
            ((" cogito ".toList) ++ (endTagChars ++ (" post".toList))))) ++
          removeThinkingBlocks (("pre ".toList) ++ (startTagChars ++
            ((" cogito ".toList) ++ (endTagChars ++ (" post".toList)))))) =
      removeThinkingBlocks (("pre ".toList) ++ (startTagChars ++
        ((" cogito ".toList) ++ (endTagChars ++ (" post".toList))))) :=
  ⟨⟨by decide, by decide⟩,
   C6_roundtrip ("pre ".toList) (" cogito ".toList) (" post".toList)
     (by decide) (by decide)⟩
